import Mathlib

/-!
Shallow embedding of the `dns_sinkhole` DNS sinkhole server
(`src/dns_sinkhole/main.py`) and proofs of its specified properties.

Python strings are modelled through their character lists (`String.data`):
`str.split('.')` keeps empty pieces, `str.split()` splits on whitespace
runs and drops empty pieces, `str.strip()` removes whitespace at both
ends, `str.lower()` lowercases each character.  Python `set`s of domain
strings are modelled as `Finset String`.
-/

namespace Sinkhole

/-- Python `s.split(sep)` for a single-character separator `sep`:
split at every occurrence, keeping empty pieces. -/
def pySplitChar (sep : Char) (s : String) : List String :=
  (s.data.splitOn sep).map fun l => ⟨l⟩

/-- Python `sep.join(l)` for a single-character separator `sep`. -/
def pyJoinChar (sep : Char) (l : List String) : String :=
  ⟨List.intercalate [sep] (l.map String.data)⟩

/-- Python `s.lower()`. -/
def pyLower (s : String) : String :=
  ⟨s.data.map Char.toLower⟩

/-- Python `s.strip()`: remove leading and trailing whitespace. -/
def pyStrip (s : String) : String :=
  ⟨((s.data.dropWhile Char.isWhitespace).reverse.dropWhile Char.isWhitespace).reverse⟩

/-- Python `s.split()` with no argument: split on whitespace runs,
discarding empty pieces. -/
def pySplitWs (s : String) : List String :=
  ((s.data.splitOnP Char.isWhitespace).filter (· ≠ [])).map fun l => ⟨l⟩

/-- Python `s.startswith(c)` for a one-character argument. -/
def pyStartsWithChar (c : Char) (s : String) : Bool :=
  s.data.head? = some c

/-- The action returned by the hierarchical list lookup:
which of the three lists matched. -/
inductive ListAction
  | DENYLIST
  | ALLOWLIST
  | BLOCKLIST
deriving DecidableEq

/-- One level of the loop body of `is_domain_blocked_hierarchical`:
check the denylist first, then the allowlist, then the blocklist. -/
def matchLevel (sub_domain : String) (denylist allowlist blocklist : Finset String) :
    Option (ListAction × String) :=
  if sub_domain ∈ denylist then some (.DENYLIST, sub_domain)
  else if sub_domain ∈ allowlist then some (.ALLOWLIST, sub_domain)
  else if sub_domain ∈ blocklist then some (.BLOCKLIST, sub_domain)
  else none

/-- Embedding of `is_domain_blocked_hierarchical` (main.py lines 85-108):
`parts = qname.split('.')`; for `i in range(len(parts))` form
`sub_domain = ".".join(parts[i:])` and return the first list hit
(denylist, then allowlist, then blocklist); `none` models `(None, None)`. -/
def is_domain_blocked_hierarchical (qname : String)
    (denylist allowlist blocklist : Finset String) : Option (ListAction × String) :=
  let parts := pySplitChar '.' qname
  (List.range parts.length).findSome? fun i =>
    matchLevel (pyJoinChar '.' (parts.drop i)) denylist allowlist blocklist

/-- Candidate suffixes of `qname` along label boundaries, most specific
first, as enumerated by the loop of `is_domain_blocked_hierarchical`
(the spec's `S_i = join(L_i .. L_{k-1})` for `i = 0..k-1`). -/
def candidateSuffixes (qname : String) : List String :=
  let parts := pySplitChar '.' qname
  (List.range parts.length).map fun i => pyJoinChar '.' (parts.drop i)

/-- Specification-side statement of the hierarchical match: find the
first (most specific) candidate suffix present in any of the three
sets, and decide by denylist > allowlist > blocklist at that suffix. -/
def specMatch (qname : String) (denylist allowlist blocklist : Finset String) :
    Option (ListAction × String) :=
  match (candidateSuffixes qname).find?
      (fun s => decide (s ∈ denylist) || decide (s ∈ allowlist) || decide (s ∈ blocklist)) with
  | none => none
  | some s =>
    some (if s ∈ denylist then .DENYLIST else if s ∈ allowlist then .ALLOWLIST
          else .BLOCKLIST, s)

theorem intercalate_cons_eq (x : Char) (a : List Char) (l : List (List Char)) :
    [x].intercalate (a :: l) = a ++ if l = [] then [] else x :: [x].intercalate l := by
  cases l with
  | nil => simp [List.intercalate]
  | cons b t => simp [List.intercalate, List.intersperse]

theorem intercalate_take_drop (x : Char) (l : List (List Char)) (i : Nat)
    (h1 : 0 < i) (h2 : i < l.length) :
    [x].intercalate l = [x].intercalate (l.take i) ++ x :: [x].intercalate (l.drop i) := by
  induction l generalizing i with
  | nil => simp at h2
  | cons a t ih =>
    match i, h1 with
    | 1, _ =>
      simp only [List.take_succ_cons, List.take_zero, List.drop_succ_cons, List.drop_zero]
      rw [intercalate_cons_eq]
      have ht : t ≠ [] := by
        intro h; subst h; simp at h2
      simp [ht, List.intercalate]
    | (j+2), _ =>
      have hj : 0 < j + 1 := Nat.succ_pos _
      have hj2 : j + 1 < t.length := by simpa using Nat.lt_of_succ_lt_succ h2
      have ht : t ≠ [] := by
        intro h; subst h; simp at hj2
      simp only [List.take_succ_cons, List.drop_succ_cons]
      rw [intercalate_cons_eq, intercalate_cons_eq, ih (j+1) hj hj2]
      have htake : t.take (j+1) ≠ [] := by
        have hlen : (t.take (j+1)).length = min (j+1) t.length := List.length_take _ _
        intro h
        rw [h] at hlen
        simp at hlen
        omega
      simp [ht, htake]

theorem pyJoin_pySplit (c : Char) (q : String) : pyJoinChar c (pySplitChar c q) = q := by
  unfold pyJoinChar pySplitChar
  apply String.ext
  show List.intercalate [c] (((q.data.splitOn c).map fun l => String.mk l).map String.data) = _
  rw [List.map_map]
  have hcomp : (String.data ∘ fun l : List Char => String.mk l) = id := rfl
  rw [hcomp, List.map_id]
  exact List.intercalate_splitOn q.data c

theorem matchLevel_eq_none {s : String} {d a b : Finset String} :
    matchLevel s d a b = none ↔ s ∉ d ∧ s ∉ a ∧ s ∉ b := by
  unfold matchLevel
  split_ifs <;> simp_all

theorem matchLevel_eq_some {s m : String} {act : ListAction} {d a b : Finset String}
    (h : matchLevel s d a b = some (act, m)) : m = s ∧ (s ∈ d ∨ s ∈ a ∨ s ∈ b) := by
  unfold matchLevel at h
  split_ifs at h <;> simp_all

theorem findSome?_matchLevel (l : List String) (d a b : Finset String) :
    (l.findSome? fun s => matchLevel s d a b) =
      match l.find? (fun s => decide (s ∈ d) || decide (s ∈ a) || decide (s ∈ b)) with
      | none => none
      | some s =>
        some (if s ∈ d then ListAction.DENYLIST else if s ∈ a then ListAction.ALLOWLIST
              else ListAction.BLOCKLIST, s) := by
  induction l with
  | nil => rfl
  | cons s t ih =>
    by_cases hd : s ∈ d
    · simp [List.findSome?_cons, List.find?_cons, matchLevel, hd]
    · by_cases ha : s ∈ a
      · simp [List.findSome?_cons, List.find?_cons, matchLevel, hd, ha]
      · by_cases hb : s ∈ b
        · simp [List.findSome?_cons, List.find?_cons, matchLevel, hd, ha, hb]
        · simpa [List.findSome?_cons, List.find?_cons, matchLevel, hd, ha, hb] using ih

theorem impl_eq_findSome_candidates (q : String) (d a b : Finset String) :
    is_domain_blocked_hierarchical q d a b =
      (candidateSuffixes q).findSome? fun s => matchLevel s d a b := by
  unfold is_domain_blocked_hierarchical candidateSuffixes
  rw [List.findSome?_map]
  rfl

theorem candidate_suffix_boundary (q : String) {s : String} (hs : s ∈ candidateSuffixes q) :
    s = q ∨ ∃ pre, q = pre ++ "." ++ s := by
  unfold candidateSuffixes at hs
  obtain ⟨i, hi, rfl⟩ := List.mem_map.mp hs
  rw [List.mem_range] at hi
  rcases Nat.eq_zero_or_pos i with h0 | hpos
  · subst h0
    left
    rw [List.drop_zero]
    exact pyJoin_pySplit '.' q
  · right
    have hlen : (pySplitChar '.' q).length = (q.data.splitOn '.').length := by
      unfold pySplitChar
      simp
    have hi' : i < (q.data.splitOn '.').length := hlen ▸ hi
    refine ⟨⟨['.'].intercalate ((q.data.splitOn '.').take i)⟩, ?_⟩
    apply String.ext
    rw [String.data_append, String.data_append]
    have hdrop : (pySplitChar '.' q).drop i = ((q.data.splitOn '.').drop i).map fun l => String.mk l := by
      unfold pySplitChar
      rw [List.map_drop]
    have hdata : (pyJoinChar '.' ((pySplitChar '.' q).drop i)).data =
        ['.'].intercalate ((q.data.splitOn '.').drop i) := by
      rw [hdrop]
      unfold pyJoinChar
      show List.intercalate ['.'] ((((q.data.splitOn '.').drop i).map fun l => String.mk l).map String.data) = _
      rw [List.map_map]
      have hcomp : (String.data ∘ fun l : List Char => String.mk l) = id := rfl
      rw [hcomp, List.map_id]
    rw [hdata]
    show q.data = ['.'].intercalate ((q.data.splitOn '.').take i) ++ ['.'] ++ _
    have hsplit := intercalate_take_drop '.' (q.data.splitOn '.') i hpos hi'
    rw [List.intercalate_splitOn q.data '.'] at hsplit
    conv_lhs => rw [hsplit]
    simp

/-- C1: the hierarchical match enumerates the candidate suffixes of `qname`
along label boundaries from most specific to least specific and returns the
decision of the first suffix found in any set (denylist, then allowlist,
then blocklist at each level); it returns `(None, None)` exactly when no
suffix is a member of any of the three sets, and any matched name is a
label-boundary suffix of `qname` (never a mere substring). -/
theorem C1_hierarchical_match (qname : String) (denylist allowlist blocklist : Finset String) :
    is_domain_blocked_hierarchical qname denylist allowlist blocklist =
      specMatch qname denylist allowlist blocklist
    ∧ (is_domain_blocked_hierarchical qname denylist allowlist blocklist = none ↔
        ∀ s ∈ candidateSuffixes qname, s ∉ denylist ∧ s ∉ allowlist ∧ s ∉ blocklist)
    ∧ (∀ act s, is_domain_blocked_hierarchical qname denylist allowlist blocklist = some (act, s) →
        (s ∈ denylist ∨ s ∈ allowlist ∨ s ∈ blocklist)
        ∧ (s = qname ∨ ∃ pre, qname = pre ++ "." ++ s)) := by
  refine ⟨?_, ?_, ?_⟩
  · rw [impl_eq_findSome_candidates, findSome?_matchLevel]
    rfl
  · rw [impl_eq_findSome_candidates, List.findSome?_eq_none_iff]
    constructor
    · intro h s hs
      exact matchLevel_eq_none.mp (h s hs)
    · intro h s hs
      exact matchLevel_eq_none.mpr (h s hs)
  · intro act s h
    rw [impl_eq_findSome_candidates] at h
    obtain ⟨s', hs', hm⟩ := List.exists_of_findSome?_eq_some h
    obtain ⟨rfl, hmem⟩ := matchLevel_eq_some hm
    exact ⟨hmem, candidate_suffix_boundary qname hs'⟩

/-- C1 witness: a concrete query where a parent domain on the blocklist
matches, instantiating every implication of `C1_hierarchical_match`. -/
theorem C1_hierarchical_match_witness :
    (is_domain_blocked_hierarchical "sub.example.com" ∅ ∅ {"example.com"} =
      some (ListAction.BLOCKLIST, "example.com"))
    ∧ (("example.com" ∈ (∅ : Finset String) ∨ "example.com" ∈ (∅ : Finset String)
        ∨ "example.com" ∈ ({"example.com"} : Finset String))
      ∧ ("example.com" = "sub.example.com"
        ∨ ∃ pre, "sub.example.com" = pre ++ "." ++ "example.com")) :=
  ⟨by decide,
   (C1_hierarchical_match "sub.example.com" ∅ ∅ {"example.com"}).2.2
     ListAction.BLOCKLIST "example.com" (by decide)⟩

/-- Configuration values read by the request path (`CONFIG` in main.py). -/
structure Config where
  UPSTREAM_DNS : String
  SINKHOLE_IP : String
deriving DecidableEq

/-- A DNS question: name as presented on the wire (with trailing root
dot) and numeric query type. -/
structure Question where
  name : String
  rdtype : Nat
deriving DecidableEq

/-- A resource record as built by `rrset.from_text`: owner name text,
TTL, class text, type text, and RDATA text. -/
structure RR where
  owner : String
  ttl : Nat
  rclass : String
  rtype : String
  rdata : String
deriving DecidableEq

/-- A parsed DNS message: transaction ID, response code, and the four
sections.  Wire encoding and decoding are handled by the `dnspython`
library in the source; the embedding works on parsed messages. -/
structure DnsMessage where
  id : Nat
  rcode : Nat
  question : List Question
  answer : List RR
  authority : List RR
  additional : List RR
deriving DecidableEq

/-- Behaviour of the library call `message.make_response(req)` used by
the source (spec section 4.4): preserve the transaction ID and the
question section, start from NOERROR with empty answer, authority and
additional sections. -/
def make_response (req : DnsMessage) : DnsMessage :=
  { id := req.id, rcode := 0, question := req.question,
    answer := [], authority := [], additional := [] }

/-- Behaviour of `response.set_rcode(r)`. -/
def set_rcode (m : DnsMessage) (r : Nat) : DnsMessage :=
  { m with rcode := r }

/-- Behaviour of `rrset.from_text(owner, ttl, rclass, rtype, rdata)`. -/
def rrset_from_text (owner : String) (ttl : Nat) (rclass rtype rdata : String) : RR :=
  { owner := owner, ttl := ttl, rclass := rclass, rtype := rtype, rdata := rdata }

/-- Embedding of the inner `create_sinkhole_response` of `dns_response`
(main.py lines 138-143): make a response from the request, set
RCODE=0, and append the single sinkhole A record. -/
def create_sinkhole_response (sinkholeIp : String) (req : DnsMessage)
    (qname_to_block : String) : DnsMessage :=
  let response := set_rcode (make_response req) 0
  { response with
    answer := response.answer ++ [rrset_from_text (qname_to_block ++ ".") 60 "IN" "A" sinkholeIp] }

/-- Log entries appended to `dns_logs`, abstracting the formatted
strings of the source by their tag and fields (the wall-clock timestamp
prefix is not modelled). -/
inductive LogEntry
  | query (clientIp qname : String) (qtype : Nat)
  | denylistBlocked (qname matched : String)
  | blocklistBlocked (qname matched : String)
  | forwarded (qname upstream reason : String)
  | forwardTimeout (qname upstream reason : String)
  | forwardFailed (qname reason : String)
deriving DecidableEq

/-- Behaviour of `deque(maxlen=100).append`: append at the right,
evicting the oldest (leftmost) entry when the ring already holds 100. -/
def ringAppend (logs : List LogEntry) (e : LogEntry) : List LogEntry :=
  let l := logs ++ [e]
  if 100 < l.length then l.drop (l.length - 100) else l

/-- The mutable globals of main.py that the claims observe: the three
domain sets, the two counters, and the log ring. -/
structure ServerState where
  BLOCKLIST : Finset String
  ALLOWLIST : Finset String
  DENYLIST : Finset String
  total_queries : Nat
  blocked_queries : Nat
  dns_logs : List LogEntry

/-- Outcome of the upstream call `query.udp(request, upstream, timeout=5)`:
a parsed response, a timeout (`exception.Timeout`), or any other error. -/
inductive UpstreamResult
  | success (resp : DnsMessage)
  | timedOut
  | failed
deriving DecidableEq

/-- Behaviour of `qname_obj.to_text(omit_final_dot=True)` composed with
`.lower()` (main.py line 129): drop one trailing dot and lowercase. -/
def normalizeQname (n : String) : String :=
  pyLower (if n.data.getLast? = some '.' then ⟨n.data.dropLast⟩ else n)

/-- Embedding of `dns_response` (main.py lines 116-193).  The raw
datagram is modelled by its parse result (`none` for a malformed
datagram) and the blocking upstream call by an `UpstreamResult` input;
the returned pair is the optional response (`none` models dropping the
datagram) together with the updated global state. -/
def dns_response (cfg : Config) (st : ServerState) (clientIp : String)
    (datagram : Option DnsMessage) (upstream : UpstreamResult) :
    Option DnsMessage × ServerState :=
  match datagram with
  | none => (none, st)
  | some req =>
    match req.question with
    | [] => (none, st)
    | q0 :: _ =>
      let qname := normalizeQname q0.name
      let st1 := { st with
        total_queries := st.total_queries + 1,
        dns_logs := ringAppend st.dns_logs (.query clientIp qname q0.rdtype) }
      let forwardStep (reason : String) : Option DnsMessage × ServerState :=
        match upstream with
        | .success resp =>
          (some resp,
           { st1 with dns_logs :=
              ringAppend st1.dns_logs (.forwarded qname cfg.UPSTREAM_DNS reason) })
        | .timedOut =>
          (some (set_rcode (make_response req) 2),
           { st1 with dns_logs :=
              ringAppend st1.dns_logs (.forwardTimeout qname cfg.UPSTREAM_DNS reason) })
        | .failed =>
          (some (set_rcode (make_response req) 2),
           { st1 with dns_logs :=
              ringAppend st1.dns_logs (.forwardFailed qname reason) })
      match is_domain_blocked_hierarchical qname st1.DENYLIST st1.ALLOWLIST st1.BLOCKLIST with
      | some (.DENYLIST, matched) =>
        (some (create_sinkhole_response cfg.SINKHOLE_IP req qname),
         { st1 with
            blocked_queries := st1.blocked_queries + 1,
            dns_logs := ringAppend st1.dns_logs (.denylistBlocked qname matched) })
      | some (.ALLOWLIST, matched) =>
        forwardStep (" (matched " ++ matched ++ ", overriding deny/block lists)")
      | some (.BLOCKLIST, matched) =>
        (some (create_sinkhole_response cfg.SINKHOLE_IP req qname),
         { st1 with
            blocked_queries := st1.blocked_queries + 1,
            dns_logs := ringAppend st1.dns_logs (.blocklistBlocked qname matched) })
      | none => forwardStep ""

/-- Embedding of the `/api/logs` handler `get_logs` (main.py lines
237-240): a point-in-time copy of the ring, reversed
(`list(dns_logs)[::-1]`). -/
def get_logs (st : ServerState) : List LogEntry :=
  st.dns_logs.reverse

/-- Embedding of the `/api/allowlist` handler `update_allowlist`
(main.py lines 242-249).  The request body is modelled by the value of
its `domains` key; `none` models a JSON body with the key missing, for
which `data.get('domains', [])` yields the empty list. -/
def update_allowlist (st : ServerState) (domains : Option (List String)) : ServerState :=
  { st with ALLOWLIST := ((domains.getD []).map pyLower).toFinset }

/-- Embedding of the `/api/denylist` handler `update_denylist`
(main.py lines 251-258), same shape as `update_allowlist`. -/
def update_denylist (st : ServerState) (domains : Option (List String)) : ServerState :=
  { st with DENYLIST := ((domains.getD []).map pyLower).toFinset }

/-- Result of `requests.get(url, timeout=10)` followed by
`raise_for_status()`: the body text on success, or one of the failure
kinds, all of which raise `requests.exceptions.RequestException`. -/
inductive FetchResult
  | success (body : String)
  | httpError
  | timedOut
  | transportError

/-- One iteration of the line loop of `download_blocklist` (main.py
lines 60-73): strip the line, skip empty and `#` lines, split on
whitespace, and add `parts[1]` (hosts form) or `parts[0]` (bare domain)
lowercased when non-empty. -/
def processLine (acc : Finset String) (line : String) : Finset String :=
  let l := pyStrip line
  if l = "" then acc
  else if pyStartsWithChar '#' l then acc
  else
    match pySplitWs l with
    | t0 :: t1 :: _ =>
      if t0 = "0.0.0.0" ∨ t0 = "127.0.0.1" then
        let domain := pyLower (pyStrip t1)
        if domain = "" then acc else insert domain acc
      else acc
    | [t0] =>
      let domain := pyLower (pyStrip t0)
      if domain = "" then acc else insert domain acc
    | [] => acc

/-- The set built from a fetched blocklist body by the loop of
`download_blocklist`.  Python's `splitlines` is modelled as splitting on
a newline character; the representations differ only in lines the
parser discards as empty (e.g. after a trailing newline) and in exotic
line terminators that do not occur in the specified feeds. -/
def parse_blocklist_body (body : String) : Finset String :=
  (pySplitChar '\x0a' body).foldl processLine ∅

/-- Embedding of `download_blocklist` (main.py lines 53-83): on a
successful fetch the parsed set replaces `BLOCKLIST` wholesale; every
failure raises before the assignment, is caught, and leaves the state
untouched. -/
def download_blocklist (st : ServerState) (fetch : FetchResult) : ServerState :=
  match fetch with
  | .success body => { st with BLOCKLIST := parse_blocklist_body body }
  | .httpError => st
  | .timedOut => st
  | .transportError => st

/-- A small concrete server state used to instantiate theorems with
hypotheses on concrete inputs. -/
def sampleState : ServerState :=
  { BLOCKLIST := {"example.com"}, ALLOWLIST := ∅, DENYLIST := ∅,
    total_queries := 0, blocked_queries := 0, dns_logs := [] }

/-- C9: each POST body wholesale replaces the named list by the set of
the submitted domains lowercased and deduplicated (`Finset` membership
is exactly having a lowercased submitted domain), and a body with the
`domains` key missing clears the list. -/
theorem C9_list_replacement (st : ServerState) (domains : List String) :
    (update_allowlist st (some domains)).ALLOWLIST = (domains.map pyLower).toFinset
    ∧ (update_denylist st (some domains)).DENYLIST = (domains.map pyLower).toFinset
    ∧ (∀ d, d ∈ (update_allowlist st (some domains)).ALLOWLIST ↔ ∃ x ∈ domains, pyLower x = d)
    ∧ (∀ d, d ∈ (update_denylist st (some domains)).DENYLIST ↔ ∃ x ∈ domains, pyLower x = d)
    ∧ (update_allowlist st none).ALLOWLIST = ∅
    ∧ (update_denylist st none).DENYLIST = ∅ := by
  refine ⟨rfl, rfl, ?_, ?_, rfl, rfl⟩ <;>
    intro d <;> simp [update_allowlist, update_denylist]

/-- C10: each list-replacement operation mutates only its own list:
the other two lists, both counters, and the log ring are unchanged. -/
theorem C10_frame_conditions (st : ServerState) (domains : Option (List String))
    (body : String) :
    ((update_allowlist st domains).DENYLIST = st.DENYLIST
      ∧ (update_allowlist st domains).BLOCKLIST = st.BLOCKLIST
      ∧ (update_allowlist st domains).total_queries = st.total_queries
      ∧ (update_allowlist st domains).blocked_queries = st.blocked_queries
      ∧ (update_allowlist st domains).dns_logs = st.dns_logs)
    ∧ ((update_denylist st domains).ALLOWLIST = st.ALLOWLIST
      ∧ (update_denylist st domains).BLOCKLIST = st.BLOCKLIST
      ∧ (update_denylist st domains).total_queries = st.total_queries
      ∧ (update_denylist st domains).blocked_queries = st.blocked_queries
      ∧ (update_denylist st domains).dns_logs = st.dns_logs)
    ∧ ((download_blocklist st (.success body)).ALLOWLIST = st.ALLOWLIST
      ∧ (download_blocklist st (.success body)).DENYLIST = st.DENYLIST
      ∧ (download_blocklist st (.success body)).total_queries = st.total_queries
      ∧ (download_blocklist st (.success body)).blocked_queries = st.blocked_queries
      ∧ (download_blocklist st (.success body)).dns_logs = st.dns_logs) :=
  ⟨⟨rfl, rfl, rfl, rfl, rfl⟩, ⟨rfl, rfl, rfl, rfl, rfl⟩, ⟨rfl, rfl, rfl, rfl, rfl⟩⟩

/-- C5: a blocklist fetch is atomic with respect to the published set:
on success the parsed set replaces `BLOCKLIST` wholesale, and on any
failure the whole state (in particular the blocklist and its size) is
exactly what it was before the fetch. -/
theorem C5_fetch_atomicity (st : ServerState) (fetch : FetchResult) :
    (∀ body, fetch = .success body →
      download_blocklist st fetch = { st with BLOCKLIST := parse_blocklist_body body })
    ∧ ((∀ body, fetch ≠ .success body) →
      download_blocklist st fetch = st
      ∧ (download_blocklist st fetch).BLOCKLIST = st.BLOCKLIST
      ∧ (download_blocklist st fetch).BLOCKLIST.card = st.BLOCKLIST.card) := by
  cases fetch with
  | success body =>
    refine ⟨?_, ?_⟩
    · intro b hb
      cases hb
      rfl
    · intro h
      exact absurd rfl (h body)
  | httpError => exact ⟨fun b hb => FetchResult.noConfusion hb, fun _ => ⟨rfl, rfl, rfl⟩⟩
  | timedOut => exact ⟨fun b hb => FetchResult.noConfusion hb, fun _ => ⟨rfl, rfl, rfl⟩⟩
  | transportError => exact ⟨fun b hb => FetchResult.noConfusion hb, fun _ => ⟨rfl, rfl, rfl⟩⟩

/-- C5 witness: a failed HTTP fetch against a concrete state leaves it
unchanged. -/
theorem C5_fetch_atomicity_witness :
    (∀ body, FetchResult.httpError ≠ FetchResult.success body)
    ∧ download_blocklist sampleState FetchResult.httpError = sampleState :=
  ⟨fun _ hb => FetchResult.noConfusion hb,
   ((C5_fetch_atomicity sampleState FetchResult.httpError).2
     (fun _ hb => FetchResult.noConfusion hb)).1⟩

theorem foldl_ringAppend_eq (events : List LogEntry) :
    events.foldl ringAppend [] = events.drop (events.length - 100) := by
  induction events using List.reverseRecOn with
  | nil => rfl
  | append_singleton es e ih =>
    rw [List.foldl_append, ih]
    show ringAppend (es.drop (es.length - 100)) e = (es ++ [e]).drop ((es ++ [e]).length - 100)
    by_cases h : es.length ≤ 99
    · have h0 : es.length - 100 = 0 := by omega
      rw [h0, List.drop_zero]
      simp only [ringAppend]
      have hnot : ¬ 100 < (es ++ [e]).length := by
        simp only [List.length_append, List.length_cons, List.length_nil]
        omega
      rw [if_neg hnot]
      have h0' : (es ++ [e]).length - 100 = 0 := by
        simp only [List.length_append, List.length_cons, List.length_nil]
        omega
      rw [h0', List.drop_zero]
    · simp only [ringAppend]
      have hlen : (es.drop (es.length - 100) ++ [e]).length = 101 := by
        simp only [List.length_append, List.length_drop, List.length_cons, List.length_nil]
        omega
      have hyes : 100 < (es.drop (es.length - 100) ++ [e]).length := by
        rw [hlen]
        omega
      rw [if_pos hyes, hlen]
      have h1 : (101 : Nat) - 100 = 1 := by norm_num
      rw [h1, List.drop_append_of_le_length (by rw [List.length_drop]; omega), List.drop_drop]
      have h2 : es.length - 100 + 1 = es.length - 99 := by omega
      rw [h2]
      have h3 : (es ++ [e]).length - 100 = es.length - 99 := by
        simp only [List.length_append, List.length_cons, List.length_nil]
        omega
      rw [h3, List.drop_append_of_le_length (by omega)]

theorem foldl_ringAppend_reverse (events : List LogEntry) :
    (events.foldl ringAppend []).reverse = events.reverse.take 100 := by
  rw [foldl_ringAppend_eq, List.reverse_drop]
  by_cases h : events.length ≤ 100
  · have h0 : events.length - (events.length - 100) = events.length := by omega
    rw [h0]
    rw [List.take_of_length_le (by simp), List.take_of_length_le (by simp; omega)]
  · have h0 : events.length - (events.length - 100) = 100 := by omega
    rw [h0]

/-- C8: starting from an empty ring, after any sequence of appended
events the ring holds at most 100 entries (the oldest evicted first),
and the logs endpoint returns a copy in reverse chronological order:
exactly the last 100 events, newest first. -/
theorem C8_log_ring (st : ServerState) (events : List LogEntry)
    (h : st.dns_logs = events.foldl ringAppend []) :
    (get_logs st).length ≤ 100
    ∧ get_logs st = events.reverse.take 100
    ∧ st.dns_logs = events.drop (events.length - 100) := by
  unfold get_logs
  rw [h, foldl_ringAppend_reverse, foldl_ringAppend_eq]
  refine ⟨?_, rfl, rfl⟩
  calc (events.reverse.take 100).length ≤ 100 := by
        rw [List.length_take]
        omega

/-- Three sample log events, oldest first. -/
def sampleEvents : List LogEntry :=
  [LogEntry.forwardFailed "a" "", LogEntry.forwardFailed "b" "", LogEntry.forwardFailed "c" ""]

/-- A server state whose ring holds the three sample events. -/
def sampleLogState : ServerState :=
  { sampleState with dns_logs := sampleEvents.foldl ringAppend [] }

/-- C8 witness: three appended events come back newest first. -/
theorem C8_log_ring_witness :
    sampleLogState.dns_logs = sampleEvents.foldl ringAppend []
    ∧ get_logs sampleLogState =
      [LogEntry.forwardFailed "c" "", LogEntry.forwardFailed "b" "",
       LogEntry.forwardFailed "a" ""] :=
  ⟨rfl, by
    have h := (C8_log_ring sampleLogState sampleEvents rfl).2.1
    rw [h]
    rfl⟩

/-- C7: the DNS engine drops (returns no datagram) exactly on a parse
failure or an empty question section, leaving the state untouched; every
datagram that parses with at least one question increments
`total_queries` exactly once and produces a response. -/
theorem C7_drop_and_count (cfg : Config) (st : ServerState) (ip : String)
    (dg : Option DnsMessage) (up : UpstreamResult) :
    ((dns_response cfg st ip dg up).1 = none ↔
      dg = none ∨ ∃ m, dg = some m ∧ m.question = [])
    ∧ ((dns_response cfg st ip dg up).1 = none → (dns_response cfg st ip dg up).2 = st)
    ∧ (∀ m, dg = some m → m.question ≠ [] →
        (dns_response cfg st ip dg up).2.total_queries = st.total_queries + 1
        ∧ (dns_response cfg st ip dg up).1 ≠ none) := by
  cases dg with
  | none => simp [dns_response]
  | some req =>
    obtain ⟨rid, rrc, rq, ra, rau, rad⟩ := req
    cases rq with
    | nil => simp [dns_response]
    | cons q0 qs =>
      rcases hm : is_domain_blocked_hierarchical (normalizeQname q0.name)
          st.DENYLIST st.ALLOWLIST st.BLOCKLIST with - | ⟨act, m⟩
      · cases up <;> simp [dns_response, hm]
      · cases act <;> cases up <;> simp [dns_response, hm]

/-- C2: for a query whose hierarchical match outcome is DENYLIST or
BLOCKLIST, the synthesized response preserves the transaction ID and the
question section, has RCODE=0, and contains exactly one answer RR whose
owner is the queried name with trailing dot, class IN, type A, TTL 60
and RDATA the configured sinkhole address, with empty authority and
additional sections.  The query type `q0.rdtype` is unconstrained: the
answer is type A regardless of qtype. -/
theorem C2_sinkhole_response (cfg : Config) (st : ServerState) (ip : String)
    (up : UpstreamResult) (req : DnsMessage) (q0 : Question) (qs : List Question)
    (hq : req.question = q0 :: qs) (act : ListAction) (m : String)
    (hm : is_domain_blocked_hierarchical (normalizeQname q0.name)
        st.DENYLIST st.ALLOWLIST st.BLOCKLIST = some (act, m))
    (hact : act = ListAction.DENYLIST ∨ act = ListAction.BLOCKLIST) :
    (dns_response cfg st ip (some req) up).1 =
      some { id := req.id, rcode := 0, question := req.question,
             answer := [{ owner := normalizeQname q0.name ++ ".", ttl := 60,
                          rclass := "IN", rtype := "A", rdata := cfg.SINKHOLE_IP }],
             authority := [], additional := [] } := by
  obtain ⟨rid, rrc, rq, ra, rau, rad⟩ := req
  simp only at hq
  subst hq
  rcases hact with hact | hact <;> subst hact <;>
    simp [dns_response, hm, create_sinkhole_response, make_response, set_rcode, rrset_from_text]

/-- Configuration used by concrete instantiations. -/
def sampleConfig : Config :=
  { UPSTREAM_DNS := "8.8.8.8", SINKHOLE_IP := "0.0.0.0" }

/-- A concrete AAAA query (type 28) for `sub.example.com`. -/
def sampleQuery : DnsMessage :=
  { id := 7, rcode := 0, question := [{ name := "sub.example.com.", rdtype := 28 }],
    answer := [], authority := [], additional := [] }

/-- C2 witness: an AAAA query for a name whose parent is on the
blocklist receives the single sinkhole A answer. -/
theorem C2_sinkhole_response_witness :
    sampleQuery.question = { name := "sub.example.com.", rdtype := 28 } :: []
    ∧ is_domain_blocked_hierarchical (normalizeQname "sub.example.com.")
        sampleState.DENYLIST sampleState.ALLOWLIST sampleState.BLOCKLIST =
        some (ListAction.BLOCKLIST, "example.com")
    ∧ (ListAction.BLOCKLIST = ListAction.DENYLIST ∨ ListAction.BLOCKLIST = ListAction.BLOCKLIST)
    ∧ (dns_response sampleConfig sampleState "1.2.3.4" (some sampleQuery) UpstreamResult.timedOut).1 =
      some { id := sampleQuery.id, rcode := 0, question := sampleQuery.question,
             answer := [{ owner := normalizeQname "sub.example.com." ++ ".", ttl := 60,
                          rclass := "IN", rtype := "A", rdata := sampleConfig.SINKHOLE_IP }],
             authority := [], additional := [] } :=
  ⟨rfl, by decide, Or.inr rfl,
   C2_sinkhole_response sampleConfig sampleState "1.2.3.4" UpstreamResult.timedOut
     sampleQuery { name := "sub.example.com.", rdtype := 28 } [] rfl
     ListAction.BLOCKLIST "example.com" (by decide) (Or.inr rfl)⟩

/-- C6: when a query proceeds to forwarding (its match outcome is
`(None, None)` or ALLOWLIST), a successful upstream call is returned
verbatim, and an upstream timeout or any other upstream error yields a
response with the query's transaction ID, the same question, RCODE=2
(SERVFAIL) and no answer RRs. -/
theorem C6_forward_errors (cfg : Config) (st : ServerState) (ip : String)
    (up : UpstreamResult) (req : DnsMessage) (q0 : Question) (qs : List Question)
    (hq : req.question = q0 :: qs)
    (hfwd : is_domain_blocked_hierarchical (normalizeQname q0.name)
        st.DENYLIST st.ALLOWLIST st.BLOCKLIST = none
      ∨ ∃ m, is_domain_blocked_hierarchical (normalizeQname q0.name)
        st.DENYLIST st.ALLOWLIST st.BLOCKLIST = some (ListAction.ALLOWLIST, m)) :
    (∀ resp, up = UpstreamResult.success resp →
      (dns_response cfg st ip (some req) up).1 = some resp)
    ∧ (up = UpstreamResult.timedOut ∨ up = UpstreamResult.failed →
      (dns_response cfg st ip (some req) up).1 =
        some { id := req.id, rcode := 2, question := req.question,
               answer := [], authority := [], additional := [] }) := by
  obtain ⟨rid, rrc, rq, ra, rau, rad⟩ := req
  simp only at hq
  subst hq
  rcases hfwd with hm | ⟨m, hm⟩ <;>
    constructor <;>
    first
      | (intro resp hresp
         subst hresp
         simp [dns_response, hm])
      | (rintro (h | h) <;> subst h <;>
         simp [dns_response, hm, make_response, set_rcode])

/-- C6 witness: a query matching no list, with an upstream timeout,
receives SERVFAIL with the question echoed. -/
theorem C6_forward_errors_witness :
    sampleQuery.question = { name := "sub.example.com.", rdtype := 28 } :: []
    ∧ is_domain_blocked_hierarchical (normalizeQname "sub.example.com.") ∅ ∅ ∅ = none
    ∧ (dns_response sampleConfig
        { sampleState with BLOCKLIST := ∅ } "1.2.3.4" (some sampleQuery)
        UpstreamResult.timedOut).1 =
      some { id := sampleQuery.id, rcode := 2, question := sampleQuery.question,
             answer := [], authority := [], additional := [] } :=
  ⟨rfl, by decide,
   (C6_forward_errors sampleConfig { sampleState with BLOCKLIST := ∅ } "1.2.3.4"
     UpstreamResult.timedOut sampleQuery { name := "sub.example.com.", rdtype := 28 } []
     rfl (Or.inl (by decide))).2 (Or.inl rfl)⟩

/-- Whether a log entry carries one of the two blocked outcome tags
(`DENYLIST BLOCKED` or `BLOCKLIST BLOCKED`). -/
def isBlockedTag : LogEntry → Bool
  | .denylistBlocked _ _ => true
  | .blocklistBlocked _ _ => true
  | .query _ _ _ => false
  | .forwarded _ _ _ => false
  | .forwardTimeout _ _ _ => false
  | .forwardFailed _ _ => false

/-- C3: `blocked_queries ≤ total_queries` is preserved by every query,
and within one query's processing `blocked_queries` grows by exactly one
when the decision log entry carries a blocked tag (DENYLIST BLOCKED or
BLOCKLIST BLOCKED) and is unchanged otherwise (FORWARDED, TIMEOUT,
ERROR) — or the datagram is dropped and the state is untouched. -/
theorem C3_blocked_counter (cfg : Config) (st : ServerState) (ip : String)
    (dg : Option DnsMessage) (up : UpstreamResult)
    (hle : st.blocked_queries ≤ st.total_queries) :
    (dns_response cfg st ip dg up).2.blocked_queries ≤
      (dns_response cfg st ip dg up).2.total_queries
    ∧ ((dns_response cfg st ip dg up).2 = st
      ∨ ∃ qe de, (dns_response cfg st ip dg up).2.dns_logs =
            ringAppend (ringAppend st.dns_logs qe) de
          ∧ isBlockedTag qe = false
          ∧ (dns_response cfg st ip dg up).2.blocked_queries =
              st.blocked_queries + (if isBlockedTag de then 1 else 0)) := by
  cases dg with
  | none => exact ⟨hle, Or.inl rfl⟩
  | some req =>
    obtain ⟨rid, rrc, rq, ra, rau, rad⟩ := req
    cases rq with
    | nil => exact ⟨hle, Or.inl rfl⟩
    | cons q0 qs =>
      rcases hm : is_domain_blocked_hierarchical (normalizeQname q0.name)
          st.DENYLIST st.ALLOWLIST st.BLOCKLIST with - | ⟨act, m⟩
      · cases up with
        | success resp =>
          refine ⟨?_, Or.inr ⟨LogEntry.query ip (normalizeQname q0.name) q0.rdtype,
            LogEntry.forwarded (normalizeQname q0.name) cfg.UPSTREAM_DNS "", ?_, rfl, ?_⟩⟩ <;>
            (simp [dns_response, hm, isBlockedTag]; try omega)
        | timedOut =>
          refine ⟨?_, Or.inr ⟨LogEntry.query ip (normalizeQname q0.name) q0.rdtype,
            LogEntry.forwardTimeout (normalizeQname q0.name) cfg.UPSTREAM_DNS "", ?_, rfl, ?_⟩⟩ <;>
            (simp [dns_response, hm, isBlockedTag]; try omega)
        | failed =>
          refine ⟨?_, Or.inr ⟨LogEntry.query ip (normalizeQname q0.name) q0.rdtype,
            LogEntry.forwardFailed (normalizeQname q0.name) "", ?_, rfl, ?_⟩⟩ <;>
            (simp [dns_response, hm, isBlockedTag]; try omega)
      · cases act with
        | DENYLIST =>
          refine ⟨?_, Or.inr ⟨LogEntry.query ip (normalizeQname q0.name) q0.rdtype,
            LogEntry.denylistBlocked (normalizeQname q0.name) m, ?_, rfl, ?_⟩⟩ <;>
            (simp [dns_response, hm, isBlockedTag]; try omega)
        | BLOCKLIST =>
          refine ⟨?_, Or.inr ⟨LogEntry.query ip (normalizeQname q0.name) q0.rdtype,
            LogEntry.blocklistBlocked (normalizeQname q0.name) m, ?_, rfl, ?_⟩⟩ <;>
            (simp [dns_response, hm, isBlockedTag]; try omega)
        | ALLOWLIST =>
          cases up with
          | success resp =>
            refine ⟨?_, Or.inr ⟨LogEntry.query ip (normalizeQname q0.name) q0.rdtype,
              LogEntry.forwarded (normalizeQname q0.name) cfg.UPSTREAM_DNS
                (" (matched " ++ m ++ ", overriding deny/block lists)"), ?_, rfl, ?_⟩⟩ <;>
              (simp [dns_response, hm, isBlockedTag]; try omega)
          | timedOut =>
            refine ⟨?_, Or.inr ⟨LogEntry.query ip (normalizeQname q0.name) q0.rdtype,
              LogEntry.forwardTimeout (normalizeQname q0.name) cfg.UPSTREAM_DNS
                (" (matched " ++ m ++ ", overriding deny/block lists)"), ?_, rfl, ?_⟩⟩ <;>
              (simp [dns_response, hm, isBlockedTag]; try omega)
          | failed =>
            refine ⟨?_, Or.inr ⟨LogEntry.query ip (normalizeQname q0.name) q0.rdtype,
              LogEntry.forwardFailed (normalizeQname q0.name)
                (" (matched " ++ m ++ ", overriding deny/block lists)"), ?_, rfl, ?_⟩⟩ <;>
              (simp [dns_response, hm, isBlockedTag]; try omega)

/-- C3 witness: a blocklist-blocked query bumps both counters on a
concrete state. -/
theorem C3_blocked_counter_witness :
    sampleState.blocked_queries ≤ sampleState.total_queries
    ∧ (dns_response sampleConfig sampleState "1.2.3.4" (some sampleQuery)
        UpstreamResult.timedOut).2.blocked_queries ≤
      (dns_response sampleConfig sampleState "1.2.3.4" (some sampleQuery)
        UpstreamResult.timedOut).2.total_queries :=
  ⟨Nat.le_refl 0,
   (C3_blocked_counter sampleConfig sampleState "1.2.3.4" (some sampleQuery)
     UpstreamResult.timedOut (Nat.le_refl 0)).1⟩

/-- C7 witness: a well-formed query increments `total_queries` and is
answered. -/
theorem C7_drop_and_count_witness :
    (some sampleQuery = some sampleQuery ∧ sampleQuery.question ≠ [])
    ∧ ((dns_response sampleConfig sampleState "1.2.3.4" (some sampleQuery)
        UpstreamResult.timedOut).2.total_queries = sampleState.total_queries + 1
      ∧ (dns_response sampleConfig sampleState "1.2.3.4" (some sampleQuery)
        UpstreamResult.timedOut).1 ≠ none) :=
  ⟨⟨rfl, by decide⟩,
   (C7_drop_and_count sampleConfig sampleState "1.2.3.4" (some sampleQuery)
     UpstreamResult.timedOut).2.2 sampleQuery rfl (by decide)⟩

theorem splitOnP_pieces {α : Type} (p : α → Bool) (l : List α) :
    ∀ piece ∈ l.splitOnP p, ∀ c ∈ piece, ¬ p c := by
  induction l with
  | nil => simp
  | cons x xs ih =>
    rw [List.splitOnP_cons]
    by_cases hx : p x
    · rw [if_pos hx]
      intro piece hp
      rcases List.mem_cons.mp hp with h | h
      · subst h; simp
      · exact ih piece h
    · rw [if_neg hx]
      cases h : xs.splitOnP p with
      | nil => exact absurd h (List.splitOnP_ne_nil p xs)
      | cons hd tl =>
        intro piece hp c hc
        simp only [List.modifyHead] at hp
        rcases List.mem_cons.mp hp with h1 | h1
        · subst h1
          rcases List.mem_cons.mp hc with h2 | h2
          · subst h2; exact hx
          · exact ih hd (h ▸ List.mem_cons_self hd tl) c h2
        · exact ih piece (h ▸ List.mem_cons_of_mem hd h1) c hc

theorem dropWhile_eq_self_of_not {α : Type} (p : α → Bool) (l : List α)
    (h : ∀ c ∈ l, ¬ p c) : l.dropWhile p = l := by
  cases l with
  | nil => rfl
  | cons x xs =>
    rw [List.dropWhile_cons]
    rw [if_neg (by simpa using h x (List.mem_cons_self x xs))]

theorem pyStrip_of_mem_pySplitWs {s l : String} (hs : s ∈ pySplitWs l) :
    pyStrip s = s := by
  unfold pySplitWs at hs
  obtain ⟨piece, hpiece, rfl⟩ := List.mem_map.mp hs
  have hmem : piece ∈ l.data.splitOnP Char.isWhitespace := List.mem_of_mem_filter hpiece
  have hnows : ∀ c ∈ piece, ¬ Char.isWhitespace c :=
    splitOnP_pieces Char.isWhitespace l.data piece hmem
  unfold pyStrip
  apply String.ext
  show ((piece.dropWhile Char.isWhitespace).reverse.dropWhile Char.isWhitespace).reverse = piece
  rw [dropWhile_eq_self_of_not Char.isWhitespace piece hnows,
    dropWhile_eq_self_of_not Char.isWhitespace piece.reverse
      (fun c hc => hnows c (List.mem_reverse.mp hc)),
    List.reverse_reverse]

/-- Specification-side per-line parse rule (spec section 4.2): strip the
line, discard it if empty or starting with `#`, split on whitespace; with
at least two tokens and `tokens[0]` one of the two host addresses take
`tokens[1]` lowercased, with exactly one token take it lowercased,
otherwise ignore the line; empty normalized domains are skipped. -/
def specLineDomain (line : String) : Option String :=
  let l := pyStrip line
  if l = "" ∨ pyStartsWithChar '#' l then none
  else
    match pySplitWs l with
    | t0 :: t1 :: _ =>
      if t0 = "0.0.0.0" ∨ t0 = "127.0.0.1" then
        let d := pyLower t1
        if d = "" then none else some d
      else none
    | [t0] =>
      let d := pyLower t0
      if d = "" then none else some d
    | [] => none

theorem processLine_eq_specLineDomain (acc : Finset String) (line : String) :
    processLine acc line =
      match specLineDomain line with
      | some d => insert d acc
      | none => acc := by
  unfold processLine specLineDomain
  by_cases h0 : pyStrip line = ""
  · simp [h0]
  · by_cases h1 : pyStartsWithChar '#' (pyStrip line)
    · simp [h0, h1]
    · simp only [h0, h1, if_neg, or_self, if_false, Bool.false_eq_true, or_false]
      cases hts : pySplitWs (pyStrip line) with
      | nil => rfl
      | cons t0 ts =>
        cases ts with
        | nil =>
          have ht0 : pyStrip t0 = t0 :=
            pyStrip_of_mem_pySplitWs (hts ▸ List.mem_cons_self t0 [])
          dsimp only
          rw [ht0]
          by_cases hd : pyLower t0 = "" <;> simp [hd]
        | cons t1 rest =>
          have ht1 : pyStrip t1 = t1 :=
            pyStrip_of_mem_pySplitWs
              (hts ▸ List.mem_cons_of_mem t0 (List.mem_cons_self t1 rest))
          dsimp only
          rw [ht1]
          by_cases hip : t0 = "0.0.0.0" ∨ t0 = "127.0.0.1"
          · by_cases hd : pyLower t1 = "" <;> simp [hip, hd]
          · simp [hip]

theorem mem_foldl_processLine (lines : List String) (acc : Finset String) (d : String) :
    d ∈ lines.foldl processLine acc ↔
      d ∈ acc ∨ ∃ line ∈ lines, specLineDomain line = some d := by
  induction lines generalizing acc with
  | nil => simp
  | cons line rest ih =>
    rw [List.foldl_cons, ih, processLine_eq_specLineDomain]
    cases hline : specLineDomain line with
    | none =>
      simp only [List.mem_cons]
      constructor
      · rintro (h | ⟨l, hl, hd⟩)
        · exact Or.inl h
        · exact Or.inr ⟨l, Or.inr hl, hd⟩
      · rintro (h | ⟨l, rfl | hl, hd⟩)
        · exact Or.inl h
        · rw [hline] at hd; exact Option.noConfusion hd
        · exact Or.inr ⟨l, hl, hd⟩
    | some d0 =>
      simp only [Finset.mem_insert, List.mem_cons]
      constructor
      · rintro (⟨rfl | h⟩ | ⟨l, hl, hd⟩)
        · exact Or.inr ⟨line, Or.inl rfl, hline⟩
        · exact Or.inl (by assumption)
        · exact Or.inr ⟨l, Or.inr hl, hd⟩
      · rintro (h | ⟨l, rfl | hl, hd⟩)
        · exact Or.inl (Or.inr h)
        · rw [hline] at hd
          exact Or.inl (Or.inl (Option.some.inj hd).symm)
        · exact Or.inr ⟨l, hl, hd⟩

/-- The concrete blocklist feed body of the specification's end-to-end
scenario 4. -/
def sampleFeed : String :=
  "# c\n127.0.0.1 localhost\n0.0.0.0 example.com\n0.0.0.0 another.org # x\nmalicious.net\n"

/-- C4: a domain lands in the parsed blocklist exactly when some line of
the body yields it under the per-line rule (strip, skip empty and `#`
lines, hosts form `0.0.0.0`/`127.0.0.1` takes the second token, a single
bare token is taken, others ignored, lowercased, empty skipped); the set
wholesale replaces the blocklist, and the specification's sample feed
yields exactly its four domains. -/
theorem C4_blocklist_parsing :
    (∀ body d, d ∈ parse_blocklist_body body ↔
      ∃ line ∈ pySplitChar '\x0a' body, specLineDomain line = some d)
    ∧ (∀ st body, (download_blocklist st (.success body)).BLOCKLIST = parse_blocklist_body body)
    ∧ parse_blocklist_body sampleFeed =
      {"localhost", "example.com", "another.org", "malicious.net"} := by
  refine ⟨?_, fun st body => rfl, ?_⟩
  · intro body d
    unfold parse_blocklist_body
    rw [mem_foldl_processLine]
    simp
  · decide

/-- C4 witness: a concrete line of the sample feed accounts for a
concrete member of the parsed set. -/
theorem C4_blocklist_parsing_witness :
    "another.org" ∈ parse_blocklist_body sampleFeed :=
  (C4_blocklist_parsing.1 sampleFeed "another.org").mpr
    ⟨"0.0.0.0 another.org # x", by decide, by decide⟩

end Sinkhole
